import Mathlib

/-!
# Verification of the Hacker News report generator pipeline

Shallow embedding of the core pure logic of `src/generate_report.py`:
Python strings are modelled as `List Char`, Python string methods
(`split`, `strip`, `lower`, slicing) as explicit Lean functions with
CPython semantics, and the model/network collaborators as explicit
parameters.  All definitions are translated from the source; theorems
settle the specification claims.
-/

namespace HNReport

/-- Python strings are modelled as lists of unicode scalar values. -/
abbrev Str := List Char

/-- The ASCII whitespace characters recognised by Python `str.strip()` and the regex class `\\s` (the source only ever meets these whitespace characters). -/
def pyIsSpace (c : Char) : Bool :=
  c = ' ' || c = '\t' || c = '\n' || c = '\r' || c = '\x0b' || c = '\x0c'

/-- Python `text.split('\\n')`: split at every newline, keeping empty pieces; `n` newlines yield `n + 1` pieces. -/
def splitNl : Str → List Str
  | [] => [[]]
  | c :: cs =>
    if c = '\n' then [] :: splitNl cs
    else
      match splitNl cs with
      | [] => [[c]]
      | h :: t => (c :: h) :: t

/-- Python `'\\n'.join(lines)`. -/
def interNl : List Str → Str
  | [] => []
  | [l] => l
  | l :: ls => l ++ '\n' :: interNl ls

/-- Python `text.split('\\n\\n')`: split at non-overlapping occurrences of two consecutive newlines, scanning left to right. -/
def splitNN : Str → List Str
  | [] => [[]]
  | [c] => [[c]]
  | c :: c2 :: rest =>
    if c = '\n' ∧ c2 = '\n' then [] :: splitNN rest
    else
      match splitNN (c2 :: rest) with
      | [] => [[c]]
      | h :: t => (c :: h) :: t

/-- Slices `line[i:i+n]` for `i in range(0, len(line), n)` in
`_split_content`'s oversized-line branch (CPython raises `ValueError` for
step `0`; the pipeline only calls the chunker with `max_length = 2000`). -/
def sliceChunks (n : Nat) (l : Str) : List Str :=
  if n = 0 then []
  else if l = [] then []
  else l.take n :: sliceChunks n (l.drop n)
termination_by l.length
decreasing_by
  rename_i hn hl
  simp only [List.length_drop]
  have h1 : 0 < l.length := List.length_pos.mpr hl
  omega

/-- The loop of `DiscordWebhook._split_content`, one step per line:
state is the emitted chunk list and the accumulating `current_chunk`. -/
def splitLoop (maxLength : Nat) : List Str → List Str → Str → List Str
  | [], chunks, cur => if cur = [] then chunks else chunks ++ [cur]
  | line :: rest, chunks, cur =>
    if maxLength ≤ line.length then
      splitLoop maxLength rest
        ((if cur = [] then chunks else chunks ++ [cur]) ++ sliceChunks maxLength line) []
    else if cur.length + line.length + 1 ≤ maxLength then
      splitLoop maxLength rest chunks (cur ++ line ++ ['\n'])
    else
      splitLoop maxLength rest (if cur = [] then chunks else chunks ++ [cur]) (line ++ ['\n'])

/-- `DiscordWebhook._split_content(content, max_length)`. -/
def split_content (content : Str) (maxLength : Nat) : List Str :=
  splitLoop maxLength (splitNl content) [] []

/-- One buffer group: each grouped line followed by the newline the loop
body appends (`current_chunk += line + '\n'`). -/
def withNl : List Str → Str
  | [] => []
  | l :: ls => l ++ '\n' :: withNl ls

/-- The elision marker `_truncate_content` inserts between the head and the
tail: the literal pieces of `f"..."` around the two kept slices. -/
def truncMarker : Str := "\n\n...（中略）...\n\n".toList

/-- `first_part_size = int(self.max_content_chars * 0.6)`.  CPython computes
`n * 0.6` in binary floating point; the result of `int` agrees with
`6 * n / 10` for every budget below two million, which covers every
configurable value met in practice. -/
def firstPartSize (maxChars : Nat) : Nat := 6 * maxChars / 10

/-- Python `content[k:]` for a possibly negative start index `k`:
a negative start counts from the end and clamps at zero. -/
def pySliceFrom (l : Str) (k : Int) : Str :=
  if k < 0 then l.drop ((l.length + k).toNat) else l.drop k.toNat

/-- `WebContentFetcher._truncate_content`: keep the first
`first_part_size` characters and the characters from `-last_part_size`
on, joined by the elision marker (`last_part_size` is computed in ℤ, as in
Python, where it can reach zero or below for small budgets). -/
def truncate_content (maxChars : Nat) (content : Str) : Str :=
  if content.length ≤ maxChars then content
  else
    content.take (firstPartSize maxChars) ++ truncMarker ++
      pySliceFrom content (-((maxChars : Int) - (firstPartSize maxChars : Int) - 20))

/-- Python `str.strip()`: remove leading and trailing whitespace. -/
def pyStrip (s : Str) : Str :=
  ((s.dropWhile pyIsSpace).reverse.dropWhile pyIsSpace).reverse

/-- Python `'\n\n'.join(sections)`. -/
def interNN : List Str → Str
  | [] => []
  | [l] => l
  | l :: ls => l ++ '\n' :: '\n' :: interNN ls

/-- The character test of the regex `[\u3040-\u309F\u30A0-\u30FF\u4E00-\u9FFF]`
(hiragana, katakana, CJK ideographs). -/
def isJapaneseChar (c : Char) : Bool :=
  (0x3040 ≤ c.toNat && c.toNat ≤ 0x309F) ||
  (0x30A0 ≤ c.toNat && c.toNat ≤ 0x30FF) ||
  (0x4E00 ≤ c.toNat && c.toNat ≤ 0x9FFF)

/-- `re.search` of the Japanese character class in a text. -/
def hasJapanese (s : Str) : Bool := s.any isJapaneseChar

/-- The character class `[\d\*\-\s]` of the header regex. -/
def isHeaderClassChar (c : Char) : Bool :=
  c.isDigit || c = '*' || c = '-' || pyIsSpace c

/-- `[A-Z]`. -/
def isUpperAscii (c : Char) : Bool := 'A' ≤ c && c ≤ 'Z'

/-- `[a-z]`. -/
def isLowerAscii (c : Char) : Bool := 'a' ≤ c && c ≤ 'z'

/-- `re.search(r'^[\d\*\-\s]*[A-Z][a-z]+.*:', line)`: a match exists iff
after the maximal prefix of class characters the line has an ASCII upper
letter, an ASCII lower letter, and a later colon (`.*` absorbs anything in
between, so only the first colon position matters; an upper-case letter can
never sit inside the class prefix, so the maximal prefix is the only
candidate split). -/
def matchesHeaderColon (line : Str) : Bool :=
  match line.dropWhile isHeaderClassChar with
  | a :: b :: rest => isUpperAscii a && isLowerAscii b && rest.any (fun c => c = ':')
  | _ => false

/-- `re.search(r'^\d+\.\s+', line)`: a nonempty maximal digit prefix
followed by a dot and a whitespace character. -/
def matchesEnum (line : Str) : Bool :=
  !(line.takeWhile Char.isDigit).isEmpty &&
  match line.dropWhile Char.isDigit with
  | '.' :: w :: _ => pyIsSpace w
  | _ => false

/-- A line skipped by the header loop of `extract_japanese_response`. -/
def isSkippableHeader (line : Str) : Bool := matchesHeaderColon line || matchesEnum line

/-- The `for i, line in enumerate(lines)` loop of
`extract_japanese_response`: the first line that is not a skippable header
and contains a Japanese character yields `'\n'.join(lines[i:]).strip()`. -/
def findAnswer : List Str → Option Str
  | [] => none
  | l :: ls =>
    if isSkippableHeader l then findAnswer ls
    else if hasJapanese l then some (pyStrip (interNl (l :: ls)))
    else findAnswer ls

/-- `extract_japanese_response(text)`: keep the blank-line-delimited
sections containing Japanese characters; if none, return the input
unchanged; otherwise rejoin them, strip, and scan for the first
non-header Japanese line. -/
def extract_japanese_response (text : Str) : Str :=
  let japSections := (splitNN text).filter hasJapanese
  if japSections.isEmpty then text
  else
    let result := pyStrip (interNN japSections)
    match findAnswer (splitNl result) with
    | some answer => answer
    | none => result

def pyLower (s : Str) : Str := s.map Char.toLower

/-- Python `str(n)` for a natural number. -/
def natStr (n : Nat) : Str := (Nat.repr n).toList

/-- `long.startswith(pat)` (at the front). -/
def startsWith (pat s : Str) : Bool := s.take pat.length == pat

/-- Python `url.endswith(suf)`. -/
def endsWithStr (suf s : Str) : Bool :=
  decide (suf.length ≤ s.length) && (s.drop (s.length - suf.length) == suf)

/-- Python `pat in s` (substring containment). -/
def hasSub (pat : Str) : Str → Bool
  | [] => pat.isEmpty
  | c :: rest => startsWith pat (c :: rest) || hasSub pat rest

/-- Helper of the tag regex: given the characters after the opening `<`,
the index of the closing `>` of the non-greedy match `<[^<]+?>`, i.e. the
first `>` at index at least 1 such that no `<` occurs before it. -/
def tagEndAux : Str → Nat → Option Nat
  | [], _ => none
  | c :: cs, i =>
    if c = '>' then some i
    else if c = '<' then none
    else tagEndAux cs (i + 1)

/-- Index of the closing `>` of `<[^<]+?>` in the characters following the
opening `<` (the first character must be a non-`<` body character). -/
def tagEnd (l : Str) : Option Nat :=
  match l with
  | [] => none
  | c :: cs => if c = '<' then none else tagEndAux cs 1

/-- `re.sub("<[^<]+?>", "", text)`: remove every non-greedy tag match,
scanning left to right and resuming after each match.  Structurally
recursive on a fuel argument so that the kernel can evaluate it; the fuel
never runs out since each step consumes at least one character. -/
def stripTagsGo : Nat → Str → Str
  | _, [] => []
  | 0, l => l
  | fuel + 1, c :: cs =>
    if c = '<' then
      match tagEnd cs with
      | some i => stripTagsGo fuel (cs.drop (i + 1))
      | none => c :: stripTagsGo fuel cs
    else c :: stripTagsGo fuel cs

/-- `re.sub("<[^<]+?>", "", text)`. -/
def stripTags (l : Str) : Str := stripTagsGo l.length l

/-- The comment-cleaning steps of `generate_story_summary`
(lines 365-368): strip tags, unescape HTML entities (the stdlib
`html.unescape`, passed as a parameter since it is external library code;
it is the identity on entity-free text), then
`text[:200] + "..." if len(text) > 200 else text`. -/
def cleanComment (unescape : Str → Str) (raw : Str) : Str :=
  let t := unescape (stripTags raw)
  if 200 < t.length then t.take 200 ++ "...".toList else t

/-- The Hacker News discussion host checked by `_should_skip_url`. -/
def hnHost : Str := "news.ycombinator.com".toList

/-- `skip_extensions = ('.pdf', '.zip', '.exe', '.dmg', '.iso')`. -/
def skipExtensions : List Str :=
  [".pdf".toList, ".zip".toList, ".exe".toList, ".dmg".toList, ".iso".toList]

/-- `WebContentFetcher._should_skip_url(url)`: empty url, url containing
the discussion host as a substring, or lowercased url ending in one of the
skip extensions. -/
def should_skip_url (url : Str) : Bool :=
  if url.isEmpty then true
  else if hasSub hnHost url then true
  else if skipExtensions.any (fun e => endsWithStr e (pyLower url)) then true
  else false

/-- The uniform result record of `fetch_article_content`. -/
structure FetchResult where
  content : Option Str
  title : Option Str
  error : Option Str
  method : Option Str
deriving DecidableEq

/-- Outcome of the single `requests.get` call, an external collaborator:
a timeout, an HTTP error status, another transport failure, or a body. -/
inductive NetResult where
  | timeout : NetResult
  | httpError (msg : Str) : NetResult
  | otherError (msg : Str) : NetResult
  | ok (body : Str) : NetResult

/-- The error string of the skip branch. -/
def skipErrorMsg : Str := "URL skipped (internal or unsupported type)".toList

/-- The result returned for a skipped URL. -/
def skipResult : FetchResult := ⟨none, none, some skipErrorMsg, none⟩

/-- `WebContentFetcher.fetch_article_content(url)`.  The three extraction
helpers wrap external libraries (trafilatura, readability-lxml,
BeautifulSoup) and are passed as parameters returning either a stripped
text of length over 50 or nothing, as the source helpers do; the network
outcome is likewise a parameter. -/
def fetch_article_content (extractTraf extractRead extractBasic : Str → Option Str)
    (maxChars : Nat) (net : NetResult) (url : Str) : FetchResult :=
  if should_skip_url url then skipResult
  else
    match net with
    | NetResult.timeout => ⟨none, none, some "Request timeout".toList, none⟩
    | NetResult.httpError m => ⟨none, none, some ("HTTP error: ".toList ++ m), none⟩
    | NetResult.otherError m => ⟨none, none, some m, none⟩
    | NetResult.ok body =>
      match extractTraf body with
      | some c => ⟨some (truncate_content maxChars c), none, none, some "trafilatura".toList⟩
      | none =>
        match extractRead body with
        | some c => ⟨some (truncate_content maxChars c), none, none, some "readability".toList⟩
        | none =>
          match extractBasic body with
          | some c => ⟨some (truncate_content maxChars c), none, none, some "basic".toList⟩
          | none => ⟨none, none, some "No content could be extracted".toList, none⟩

/-- First occurrence suffix: the characters after the first occurrence of
`pat`, or nothing when `pat` does not occur. -/
def afterSub (pat : Str) : Str → Option Str
  | [] => if pat.isEmpty then some [] else none
  | c :: rest =>
    if startsWith pat (c :: rest) then some ((c :: rest).drop pat.length)
    else afterSub pat rest

/-- Written from the claim's words, for comparison with the code's
whole-url suffix check: the path component of a url — what follows the
host, up to the first query or fragment delimiter. -/
def claimUrlPath (url : Str) : Str :=
  let rest := (afterSub "://".toList url).getD url
  let path := rest.dropWhile (fun c => c ≠ '/')
  path.takeWhile (fun c => c ≠ '?' && c ≠ '#')

/-- A story record as consumed by `generate_story_summary`: the decimal
rendering of the numeric id, `story.get("title", "No title")`,
`story.get("url")`, `story.get("score", 0)` and the raw markup texts of
`story.get("top_comments", [])`. -/
structure Story where
  title : Str
  url : Option Str
  id : Str
  score : Nat
  topComments : List Str

/-- `hn_url = f"https://news.ycombinator.com/item?id={story.get('id', '')}"`. -/
def hn_url (s : Story) : Str :=
  "https://news.ycombinator.com/item?id=".toList ++ s.id

/-- `display_url = url or hn_url`. -/
def display_url (s : Story) : Str :=
  match s.url with
  | some u => if u.isEmpty then hn_url s else u
  | none => hn_url s

/-- A chat-completion outcome: either the call raised, or it returned a
message with an optional `content` and an optional `reasoning_content`
(absent attribute and `None` coincide; a present empty string is falsy in
both places the source tests it). -/
inductive ModelOutcome where
  | exn : ModelOutcome
  | ok (content : Option Str) (reasoning : Option Str) : ModelOutcome

/-- `not content or not content.strip()` on an optional string. -/
def pyBlankOpt : Option Str → Bool
  | none => true
  | some s => s.isEmpty || (pyStrip s).isEmpty

/-- The shared empty-channel recovery of the per-story, theme and insight
stages: when the primary content is blank and the reasoning channel is
present and truthy, replace the content by
`extract_japanese_response(reasoning_content)`. -/
def recoveredContent (content reasoning : Option Str) : Option Str :=
  if pyBlankOpt content then
    match reasoning with
    | some r => if r.isEmpty then content else some (extract_japanese_response r)
    | none => content
  else content

/-- The same branch in `generate_overall_summary` (lines 480-486): line 483
assigns the recovered value, but line 485 immediately reassigns the raw
`reasoning_content`, discarding the recovery. -/
def overallRecovered (content reasoning : Option Str) : Option Str :=
  if pyBlankOpt content then
    match reasoning with
    | some r =>
      if r.isEmpty then content
      else
        let _recovered := extract_japanese_response r
        some r
    | none => content
  else content

/-- Python `str(x)` of an optional string inside an f-string: `None` is
rendered literally. -/
def pyShowOpt : Option Str → Str
  | none => "None".toList
  | some s => s

/-- `generate_overall_summary`, as a function of the model outcome (the
prompt built from the story messages only feeds the model call). -/
def generate_overall_summary (outcome : ModelOutcome) : Str :=
  match outcome with
  | ModelOutcome.exn => "## 📋 本日の全体まとめ\n全体まとめの生成に失敗しました。".toList
  | ModelOutcome.ok content reasoning =>
    "## 📋 本日の全体まとめ\n".toList ++ pyShowOpt (overallRecovered content reasoning)

/-- The cleaned, non-blank comment texts of `generate_story_summary`
(lines 363-370). -/
def comments_text (unescape : Str → Str) (raws : List Str) : List Str :=
  (raws.map (cleanComment unescape)).filter (fun t => !(pyStrip t).isEmpty)

/-- `comments_joined` (line 371): the cleaned comments as bullet lines, or
the no-comments placeholder. -/
def comments_joined (unescape : Str → Str) (raws : List Str) : Str :=
  let ts := comments_text unescape raws
  if ts.isEmpty then "コメントなし".toList
  else interNl (ts.map (fun t => "- ".toList ++ t))

/-- The `article_content` / `fetch_error` pair derived from a fetch result
(lines 353-360): the content when truthy, otherwise the error. -/
def fetchedContext (r : FetchResult) : Option Str × Option Str :=
  match r.content with
  | some c => if c.isEmpty then (none, r.error) else (some c, none)
  | none => (none, r.error)

/-- The content section with the fetched article body. -/
def sectionArticle (articleContent : Str) : Str :=
  "\n【記事本文】\n".toList ++ articleContent ++ "\n".toList

/-- The content-unavailable placeholder carrying the fetch error. -/
def sectionFetchError (fetchError : Str) : Str :=
  "\n【記事本文】\n※記事の本文を取得できませんでした（".toList ++ fetchError ++
    "）。\nタイトルとURL情報から記事の概要を推測してください。\n".toList

/-- The placeholder for link-less (Ask HN / Show HN) stories. -/
def sectionNoArticle : Str :=
  "\n【記事本文】\n※Ask HN / Show HN のため外部記事がありません。\nHacker News上の情報から内容を推測してください。\n".toList

/-- The `content_section` if/elif/else of lines 374-390, with `urlTruthy`
standing for the truthiness of `url`. -/
def content_section (urlTruthy : Bool) (articleContent : Option Str)
    (fetchError : Option Str) : Str :=
  match articleContent with
  | some ac => sectionArticle ac
  | none =>
    match fetchError with
    | some e => if urlTruthy && !e.isEmpty then sectionFetchError e else sectionNoArticle
    | none => sectionNoArticle

/-- The prompt text before the content section (lines 392-395). -/
def promptHead (index : Nat) (title displayUrl : Str) (score : Nat) : Str :=
  "Hacker Newsのトップ記事 ".toList ++ natStr index ++ " を要約してください。\nタイトル: ".toList ++
    title ++ "\nURL: ".toList ++ displayUrl ++ "\nスコア: ".toList ++ natStr score ++ "\n".toList

/-- The prompt text after the content section (lines 397-405). -/
def promptTail (commentsJoined : Str) : Str :=
  "\n【Hacker News上の主なコメント】\n".toList ++ commentsJoined ++
    "\n\n以下の形式で短い日本語メッセージを作成してください:\n- タイトルとURL\n- 記事内容の要約（実際の記事内容に基づいて簡潔に）\n- コメントから読み取れるポイントの要約\n- なぜ重要か/興味深いかを一文\n".toList

/-- The per-story prompt of `generate_story_summary` (lines 392-405). -/
def story_prompt (index : Nat) (title displayUrl : Str) (score : Nat)
    (contentSec commentsJoined : Str) : Str :=
  promptHead index title displayUrl score ++ contentSec ++ promptTail commentsJoined

/-- The deterministic fallback string of lines 440-443, synthesized from
title, display url, score and cleaned comments. -/
def story_summary_fallback (unescape : Str → Str) (s : Story) : Str :=
  s.title ++ " (".toList ++ display_url s ++ ") の要約を生成できませんでした。 スコア: ".toList ++
    natStr s.score ++ "。主要コメント: ".toList ++ comments_joined unescape s.topComments

/-- `generate_story_summary` from the model call on (lines 409-449), as a
function of the model outcome: the primary content, recovered through the
reasoning channel when blank, falls back to the deterministic story
fallback when still blank, is prefixed with the article number, and any
exception of the call is converted to the failure sentence. -/
def generate_story_summary (unescape : Str → Str) (s : Story) (index : Nat)
    (outcome : ModelOutcome) : Str :=
  match outcome with
  | ModelOutcome.exn =>
    s.title ++ " (".toList ++ display_url s ++ ") の要約生成に失敗しました。".toList
  | ModelOutcome.ok content reasoning =>
    let c1 := recoveredContent content reasoning
    let c2 := if pyBlankOpt c1 then story_summary_fallback unescape s else c1.getD []
    "【記事 ".toList ++ natStr index ++ "】\n".toList ++ c2

/-- `MIN_SUMMARY_LENGTH` (line 26). -/
def MIN_SUMMARY_LENGTH : Nat := 50

/-- The per-story filtering of `main`'s loop (lines 750-759): a falsy
message or one whose stripped length is below the gate is skipped; the
rest are appended to `story_messages` in order. -/
def collectStoryMessages : List Str → List Str
  | [] => []
  | m :: rest =>
    if m.isEmpty then collectStoryMessages rest
    else if (pyStrip m).length < MIN_SUMMARY_LENGTH then collectStoryMessages rest
    else m :: collectStoryMessages rest

theorem splitNl_ne_nil (s : Str) : splitNl s ≠ [] := by
  cases s with
  | nil => simp [splitNl]
  | cons c cs =>
    simp only [splitNl]
    split
    · simp
    · split <;> simp

theorem splitNN_ne_nil (s : Str) : splitNN s ≠ [] := by
  induction s using splitNN.induct with
  | case1 => simp [splitNN]
  | case2 c => simp [splitNN]
  | case3 c c2 rest h ih => simp [splitNN, h]
  | case4 c c2 rest h heq ih => exact absurd heq ih
  | case5 c c2 rest h l t heq ih =>
    rw [splitNN.eq_def]
    simp only [if_neg h, heq]
    simp

theorem interNl_splitNl (s : Str) : interNl (splitNl s) = s := by
  induction s with
  | nil => simp [splitNl, interNl]
  | cons c cs ih =>
    by_cases hc : c = '\n'
    · subst hc
      simp only [splitNl, if_pos rfl]
      obtain ⟨l, ls, h⟩ := List.exists_cons_of_ne_nil (splitNl_ne_nil cs)
      rw [h] at ih ⊢
      simp only [interNl]
      rw [ih]
      simp
    · simp only [splitNl, if_neg hc]
      obtain ⟨l, ls, h⟩ := List.exists_cons_of_ne_nil (splitNl_ne_nil cs)
      rw [h] at ih ⊢
      cases ls with
      | nil => simp only [interNl] at ih ⊢; rw [ih]
      | cons l2 ls2 =>
        simp only [interNl] at ih ⊢
        rw [List.cons_append, ih]

theorem mem_of_mem_splitNl (s : Str) (p : Str) (hp : p ∈ splitNl s)
    (c : Char) (hc : c ∈ p) : c ∈ s := by
  induction s generalizing p with
  | nil =>
    simp [splitNl] at hp
    subst hp
    simp at hc
  | cons a cs ih =>
    by_cases ha : a = '\n'
    · rw [splitNl, if_pos ha] at hp
      rcases List.mem_cons.mp hp with hp | hp
      · subst hp; simp at hc
      · exact List.mem_cons_of_mem _ (ih p hp hc)
    · rw [splitNl, if_neg ha] at hp
      obtain ⟨l, ls, h⟩ := List.exists_cons_of_ne_nil (splitNl_ne_nil cs)
      rw [h] at hp
      rcases List.mem_cons.mp hp with hp | hp
      · subst hp
        rcases List.mem_cons.mp hc with hc | hc
        · simp [hc]
        · exact List.mem_cons_of_mem _ (ih l (by rw [h]; exact List.mem_cons_self _ _) hc)
      · exact List.mem_cons_of_mem _ (ih p (by rw [h]; exact List.mem_cons_of_mem _ hp) hc)

theorem mem_of_mem_splitNN (s : Str) (p : Str) (hp : p ∈ splitNN s)
    (c : Char) (hc : c ∈ p) : c ∈ s := by
  induction s using splitNN.induct generalizing p with
  | case1 =>
    simp [splitNN] at hp
    subst hp
    simp at hc
  | case2 a =>
    simp [splitNN] at hp
    subst hp
    simpa using hc
  | case3 a a2 rest h ih =>
    rw [splitNN.eq_def] at hp
    obtain ⟨rfl, rfl⟩ := h
    simp only [if_pos (And.intro rfl rfl)] at hp
    rcases List.mem_cons.mp hp with hp | hp
    · subst hp; simp at hc
    · exact List.mem_cons_of_mem _ (List.mem_cons_of_mem _ (ih p hp hc))
  | case4 a a2 rest h heq ih => exact absurd heq (splitNN_ne_nil _)
  | case5 a a2 rest h l t heq ih =>
    rw [splitNN.eq_def] at hp
    simp only [if_neg h, heq] at hp
    rcases List.mem_cons.mp hp with hp | hp
    · subst hp
      rcases List.mem_cons.mp hc with hc | hc
      · simp [hc]
      · exact List.mem_cons_of_mem _ (ih l (by rw [heq]; exact List.mem_cons_self _ _) hc)
    · exact List.mem_cons_of_mem _ (ih p (by rw [heq]; exact List.mem_cons_of_mem _ hp) hc)

theorem sliceChunks_nil (n : Nat) : sliceChunks n [] = [] := by
  rw [sliceChunks.eq_def]
  split <;> simp

theorem sliceChunks_cons (n : Nat) (hn : n ≠ 0) (l : Str) (hl : l ≠ []) :
    sliceChunks n l = l.take n :: sliceChunks n (l.drop n) := by
  rw [sliceChunks.eq_def]
  rw [if_neg hn, if_neg hl]

theorem withNl_cons (l : Str) (ls : List Str) :
    withNl (l :: ls) = l ++ '\n' :: withNl ls := rfl

theorem interNl_cons2 (l l2 : Str) (ls : List Str) :
    interNl (l :: l2 :: ls) = l ++ '\n' :: interNl (l2 :: ls) := rfl

theorem withNl_append (a b : List Str) : withNl (a ++ b) = withNl a ++ withNl b := by
  induction a with
  | nil => simp [withNl]
  | cons l ls ih => rw [List.cons_append, withNl_cons, withNl_cons, ih]; simp

theorem withNl_ne_nil (g : List Str) (hg : g ≠ []) : withNl g ≠ [] := by
  cases g with
  | nil => exact absurd rfl hg
  | cons l ls => simp [withNl_cons]

theorem withNl_eq_interNl_concat (g : List Str) (hg : g ≠ []) :
    withNl g = interNl g ++ ['\n'] := by
  induction g with
  | nil => exact absurd rfl hg
  | cons l ls ih =>
    cases ls with
    | nil => simp [withNl, interNl]
    | cons l2 ls2 =>
      rw [withNl_cons, interNl_cons2, ih (by simp)]
      simp

theorem dropLast_withNl (g : List Str) (hg : g ≠ []) :
    (withNl g).dropLast = interNl g := by
  rw [withNl_eq_interNl_concat g hg]
  exact List.dropLast_concat

theorem join_map_withNl (gs : List (List Str)) :
    (gs.map withNl).flatten = withNl gs.flatten := by
  induction gs with
  | nil => simp [withNl]
  | cons g gs ih => simp [withNl_append, ih]

theorem interNl_append (a b : List Str) (ha : a ≠ []) (hb : b ≠ []) :
    interNl (a ++ b) = interNl a ++ '\n' :: interNl b := by
  induction a with
  | nil => exact absurd rfl ha
  | cons l ls ih =>
    cases ls with
    | nil =>
      cases b with
      | nil => exact absurd rfl hb
      | cons b1 bs => simp [interNl]
    | cons l2 ls2 =>
      have h1 : (l :: l2 :: ls2) ++ b = l :: ((l2 :: ls2) ++ b) := by simp
      rw [h1]
      have h2 : (l2 :: ls2) ++ b = l2 :: (ls2 ++ b) := by simp
      rw [h2, interNl_cons2, ← h2, ih (by simp), interNl_cons2]
      simp

theorem interNl_map_interNl (gs : List (List Str)) (h : ∀ x ∈ gs, x ≠ []) :
    interNl (gs.map interNl) = interNl gs.flatten := by
  induction gs with
  | nil => simp [interNl]
  | cons g gs ih =>
    cases gs with
    | nil => simp [interNl]
    | cons g2 gs2 =>
      have hg : g ≠ [] := h g (List.mem_cons_self _ _)
      have hrest : ∀ x ∈ g2 :: gs2, x ≠ [] := fun x hx => h x (List.mem_cons_of_mem _ hx)
      have hg2 : g2 ≠ [] := hrest g2 (List.mem_cons_self _ _)
      have hflat : (g2 :: gs2).flatten ≠ [] := by
        simp only [List.flatten_cons, ne_eq, List.append_eq_nil]
        intro hcon
        exact hg2 hcon.1
      rw [List.map_cons, List.map_cons, interNl_cons2, List.flatten_cons,
        interNl_append g (g2 :: gs2).flatten hg hflat]
      rw [show (interNl g2 :: gs2.map interNl) = (g2 :: gs2).map interNl from rfl]
      rw [ih hrest]

theorem splitNl_no_newline (s : Str) (h : '\n' ∉ s) : splitNl s = [s] := by
  induction s with
  | nil => simp [splitNl]
  | cons c cs ih =>
    have hc : ¬c = '\n' := fun hh => h (hh ▸ List.mem_cons_self c cs)
    rw [splitNl, if_neg hc, ih (fun hh => h (List.mem_cons_of_mem c hh))]

theorem sliceChunks_length_le (n : Nat) (l : Str) :
    ∀ c ∈ sliceChunks n l, c.length ≤ n := by
  induction l using sliceChunks.induct n with
  | case1 l h => rw [sliceChunks.eq_def, if_pos h]; simp
  | case2 h => rw [sliceChunks_nil]; simp
  | case3 l h1 h2 ih =>
    rw [sliceChunks_cons n h1 l h2]
    intro c hc
    rcases List.mem_cons.mp hc with hc | hc
    · subst hc; simp [List.length_take_le]
    · exact ih c hc

theorem sliceChunks_ne_nil (n : Nat) (l : Str) :
    ∀ c ∈ sliceChunks n l, c ≠ [] := by
  induction l using sliceChunks.induct n with
  | case1 l h => rw [sliceChunks.eq_def, if_pos h]; simp
  | case2 h => rw [sliceChunks_nil]; simp
  | case3 l h1 h2 ih =>
    rw [sliceChunks_cons n h1 l h2]
    intro c hc
    rcases List.mem_cons.mp hc with hc | hc
    · subst hc
      simp only [ne_eq, List.take_eq_nil_iff]
      push_neg
      exact ⟨h1, h2⟩
    · exact ih c hc

theorem splitLoop_length_le (maxLength : Nat)
    (lines : List Str) (chunks : List Str) (cur : Str)
    (hchunks : ∀ c ∈ chunks, c.length ≤ maxLength)
    (hcur : cur.length ≤ maxLength) :
    ∀ c ∈ splitLoop maxLength lines chunks cur, c.length ≤ maxLength := by
  induction lines generalizing chunks cur with
  | nil =>
    intro c hc
    rw [splitLoop] at hc
    split at hc
    · exact hchunks c hc
    · rcases List.mem_append.mp hc with hc | hc
      · exact hchunks c hc
      · simp at hc; subst hc; exact hcur
  | cons line rest ih =>
    intro c hc
    rw [splitLoop] at hc
    split at hc
    · refine ih _ _ ?_ (by simp) c hc
      intro d hd
      rcases List.mem_append.mp hd with hd | hd
      · split at hd
        · exact hchunks d hd
        · rcases List.mem_append.mp hd with hd | hd
          · exact hchunks d hd
          · simp at hd; subst hd; exact hcur
      · exact sliceChunks_length_le _ _ d hd
    · split at hc
      · refine ih _ _ hchunks ?_ c hc
        rename_i hcond
        simp only [List.append_assoc, List.length_append, List.length_cons,
          List.length_nil] at hcond ⊢
        omega
      · refine ih _ _ ?_ ?_ c hc
        · intro d hd
          split at hd
          · exact hchunks d hd
          · rcases List.mem_append.mp hd with hd | hd
            · exact hchunks d hd
            · simp at hd; subst hd; exact hcur
        · rename_i hlong hcond
          simp only [List.length_append, List.length_cons, List.length_nil]
          omega

theorem splitLoop_ne_nil (maxLength : Nat)
    (lines : List Str) (chunks : List Str) (cur : Str)
    (hchunks : ∀ c ∈ chunks, c ≠ []) :
    ∀ c ∈ splitLoop maxLength lines chunks cur, c ≠ [] := by
  induction lines generalizing chunks cur with
  | nil =>
    intro c hc
    rw [splitLoop] at hc
    split at hc
    · exact hchunks c hc
    · rename_i hne
      rcases List.mem_append.mp hc with hc | hc
      · exact hchunks c hc
      · simp at hc; subst hc; exact hne
  | cons line rest ih =>
    intro c hc
    rw [splitLoop] at hc
    split at hc
    · refine ih _ _ ?_ c hc
      intro d hd
      rcases List.mem_append.mp hd with hd | hd
      · split at hd
        · exact hchunks d hd
        · rename_i hne
          rcases List.mem_append.mp hd with hd | hd
          · exact hchunks d hd
          · simp at hd; subst hd; exact hne
      · exact sliceChunks_ne_nil _ _ d hd
    · split at hc
      · exact ih _ _ hchunks c hc
      · refine ih _ _ ?_ c hc
        intro d hd
        split at hd
        · exact hchunks d hd
        · rename_i hne
          rcases List.mem_append.mp hd with hd | hd
          · exact hchunks d hd
          · simp at hd; subst hd; exact hne

theorem splitLoop_spec (maxLength : Nat) : ∀ (lines : List Str),
    (∀ l ∈ lines, l.length < maxLength) →
    ∀ (gs : List (List Str)) (g : List Str), (∀ x ∈ gs, x ≠ []) →
    ∃ gs' : List (List Str), (∀ x ∈ gs', x ≠ []) ∧
      gs'.flatten = gs.flatten ++ g ++ lines ∧
      splitLoop maxLength lines (gs.map withNl) (withNl g) = gs'.map withNl := by
  intro lines
  induction lines with
  | nil =>
    intro _ gs g hgs
    by_cases hg : g = []
    · subst hg
      refine ⟨gs, hgs, by simp, ?_⟩
      rw [splitLoop]
      simp [withNl]
    · refine ⟨gs ++ [g], ?_, by simp, ?_⟩
      · intro x hx
        rcases List.mem_append.mp hx with hx | hx
        · exact hgs x hx
        · simp at hx; subst hx; exact hg
      · rw [splitLoop, if_neg (withNl_ne_nil g hg)]
        simp
  | cons line rest ih =>
    intro hl gs g hgs
    have hline : line.length < maxLength := hl line (List.mem_cons_self _ _)
    have hrest : ∀ l ∈ rest, l.length < maxLength :=
      fun l hx => hl l (List.mem_cons_of_mem _ hx)
    rw [splitLoop, if_neg (not_le.mpr hline)]
    by_cases hcond : (withNl g).length + line.length + 1 ≤ maxLength
    · rw [if_pos hcond]
      have hw : withNl g ++ line ++ ['\n'] = withNl (g ++ [line]) := by
        rw [withNl_append]
        simp [withNl]
      rw [hw]
      obtain ⟨gs', h1, h2, h3⟩ := ih hrest gs (g ++ [line]) hgs
      refine ⟨gs', h1, ?_, h3⟩
      rw [h2]
      simp
    · rw [if_neg hcond]
      have hg : g ≠ [] := by
        intro hgnil
        subst hgnil
        apply hcond
        simp only [withNl, List.length_nil]
        omega
      rw [if_neg (withNl_ne_nil g hg)]
      have hli : line ++ ['\n'] = withNl [line] := by simp [withNl]
      have hmap : (gs.map withNl) ++ [withNl g] = (gs ++ [g]).map withNl := by simp
      rw [hli, hmap]
      have hgs2 : ∀ x ∈ gs ++ [g], x ≠ [] := by
        intro x hx
        rcases List.mem_append.mp hx with hx | hx
        · exact hgs x hx
        · simp at hx; subst hx; exact hg
      obtain ⟨gs', h1, h2, h3⟩ := ih hrest (gs ++ [g]) [line] hgs2
      refine ⟨gs', h1, ?_, h3⟩
      rw [h2]
      simp

/-- C3: for every input text with no line of length >= limit, concatenating
the chunks produced by `_split_content` in order and removing the
chunk-boundary newlines (each chunk's trailing newline) reproduces the
original text exactly; equivalently, the plain concatenation of the chunks
is the original text followed by a single newline. -/
theorem claim_C3 (content : Str) (maxLength : Nat)
    (h : ∀ l ∈ splitNl content, l.length < maxLength) :
    interNl ((split_content content maxLength).map List.dropLast) = content ∧
    (split_content content maxLength).flatten = content ++ ['\n'] := by
  obtain ⟨gs', h1, h2, h3⟩ :=
    splitLoop_spec maxLength (splitNl content) h [] [] (by simp)
  simp only [List.flatten_nil, List.nil_append, List.map_nil] at h2 h3
  have hsc : split_content content maxLength = gs'.map withNl := by
    rw [split_content]
    rw [show withNl [] = ([] : Str) from rfl] at h3
    exact h3
  constructor
  · rw [hsc, List.map_map]
    have hcongr : gs'.map (List.dropLast ∘ withNl) = gs'.map interNl := by
      apply List.map_congr_left
      intro g hg
      exact dropLast_withNl g (h1 g hg)
    rw [hcongr, interNl_map_interNl gs' h1, h2, interNl_splitNl]
  · rw [hsc, join_map_withNl, h2]
    rw [withNl_eq_interNl_concat _ (splitNl_ne_nil content), interNl_splitNl]

/-- Witness for C3 at the concrete input `"ab\ncd\nef"` with limit 6. -/
theorem claim_C3_witness :
    (∀ l ∈ splitNl "ab\ncd\nef".toList, l.length < 6) ∧
    interNl ((split_content "ab\ncd\nef".toList 6).map List.dropLast) = "ab\ncd\nef".toList :=
  ⟨by decide, (claim_C3 "ab\ncd\nef".toList 6 (by decide)).1⟩

/-- C4: for every input text and positive limit (CPython raises `ValueError`
when the limit is 0), every chunk emitted by `_split_content` has length at
most the limit; and on the input of 2500 `'A'`s with limit 2000 the chunker
emits exactly the two chunks of 2000 and 500 `'A'`s, in that order. -/
theorem claim_C4 (content : Str) (limit : Nat) (_hpos : 0 < limit) :
    (∀ c ∈ split_content content limit, c.length ≤ limit) ∧
    split_content (List.replicate 2500 'A') 2000 =
      [List.replicate 2000 'A', List.replicate 500 'A'] := by
  constructor
  · exact splitLoop_length_le limit (splitNl content) [] [] (by simp) (by simp)
  · have hnl : ('\n' : Char) ∉ List.replicate 2500 'A' := by
      intro hmem
      have h2 := List.eq_of_mem_replicate hmem
      exact absurd h2 (by decide)
    rw [split_content, splitNl_no_newline _ hnl]
    rw [splitLoop, if_pos (by rw [List.length_replicate]; norm_num)]
    rw [splitLoop]
    rw [sliceChunks_cons 2000 (by norm_num) _
      (List.length_pos.mp (by rw [List.length_replicate]; norm_num))]
    rw [List.take_replicate, List.drop_replicate]
    norm_num
    rw [sliceChunks_cons 2000 (by norm_num) _
      (List.length_pos.mp (by rw [List.length_replicate]; norm_num))]
    rw [List.take_replicate, List.drop_replicate]
    norm_num
    exact sliceChunks_nil 2000

/-- Witness for C4 at the concrete input `"hello"` with limit 3. -/
theorem claim_C4_witness :
    (∀ c ∈ split_content "hello".toList 3, c.length ≤ 3) ∧
    split_content (List.replicate 2500 'A') 2000 =
      [List.replicate 2000 'A', List.replicate 500 'A'] :=
  claim_C4 "hello".toList 3 (by decide)

/-- C10: for every input text and positive limit (CPython raises
`ValueError` when the limit is 0), `_split_content` never emits an empty
chunk; and the empty input text yields the single chunk `"\n"`. -/
theorem claim_C10 (content : Str) (limit : Nat) (hpos : 0 < limit) :
    (∀ c ∈ split_content content limit, c ≠ []) ∧
    split_content [] limit = [['\n']] := by
  constructor
  · exact splitLoop_ne_nil limit (splitNl content) [] [] (by simp)
  · rw [split_content]
    rw [show splitNl [] = [[]] from rfl]
    rw [splitLoop, if_neg (by simp; omega), if_pos (by simp; omega)]
    rw [splitLoop]
    simp

/-- Witness for C10 at the concrete input `"hi\nthere"` with limit 5. -/
theorem claim_C10_witness :
    (∀ c ∈ split_content "hi\nthere".toList 5, c ≠ []) ∧
    split_content [] 5 = [['\n']] :=
  claim_C10 "hi\nthere".toList 5 (by decide)

/-- C2 counterexample: with the configured budget 50 and a 51-character
text, `last_part_size` is 0 and Python's `content[-0:]` is the whole text,
so the output has length 95 > 50 + 14 = budget + marker length. -/
theorem claim_C2_counterexample :
    ¬((truncate_content 50 (List.replicate 51 'A')).length ≤ 50 + truncMarker.length) := by
  decide

/-- C2 (amended): unchanged when the text fits the budget; and whenever the
budget is at least 51 (so that `last_part_size >= 1`), the output of
`_truncate_content` on a longer text is the first `first_part_size`
characters, the elision marker, and the last `last_part_size` characters,
with total length at most budget + marker length. -/
theorem claim_C2 :
    (∀ (content : Str) (maxChars : Nat), content.length ≤ maxChars →
      truncate_content maxChars content = content) ∧
    (∀ (content : Str) (maxChars : Nat), 51 ≤ maxChars → maxChars < content.length →
      truncate_content maxChars content =
        content.take (firstPartSize maxChars) ++ truncMarker ++
          content.drop (content.length - (maxChars - firstPartSize maxChars - 20)) ∧
      (truncate_content maxChars content).length ≤ maxChars + truncMarker.length ∧
      (truncate_content maxChars content).take (firstPartSize maxChars) =
        content.take (firstPartSize maxChars) ∧
      (truncate_content maxChars content).drop
          ((truncate_content maxChars content).length -
            (maxChars - firstPartSize maxChars - 20)) =
        content.drop (content.length - (maxChars - firstPartSize maxChars - 20))) := by
  constructor
  · intro content maxChars h
    rw [truncate_content, if_pos h]
  · intro content m hm hlen
    have hmark : truncMarker.length = 14 := by decide
    have hfp : firstPartSize m + 21 ≤ m := by
      rw [firstPartSize]
      omega
    set fp := firstPartSize m with hfpdef
    set lp : Nat := m - fp - 20 with hlpdef
    have hlp1 : 1 ≤ lp := by omega
    have hslice : pySliceFrom content (-((m : Int) - (fp : Int) - 20)) =
        content.drop (content.length - lp) := by
      rw [pySliceFrom, if_pos (by omega)]
      congr 1
      omega
    have heq : truncate_content m content =
        content.take fp ++ truncMarker ++ content.drop (content.length - lp) := by
      rw [truncate_content, if_neg (not_le.mpr hlen), hslice]
    refine ⟨heq, ?_, ?_, ?_⟩
    · rw [heq]
      simp only [List.length_append, List.length_take, List.length_drop]
      omega
    · rw [heq, List.append_assoc]
      exact List.take_left' (by simp; omega)
    · rw [heq]
      have hlen2 : (content.take fp ++ truncMarker ++ content.drop (content.length - lp)).length
          = fp + 14 + lp := by
        simp only [List.length_append, List.length_take, List.length_drop]
        omega
      rw [hlen2]
      have : fp + 14 + lp - lp = fp + 14 := by omega
      rw [this]
      exact List.drop_left' (by simp; omega)

/-- Witness for C2 at a 10-character text with budget 100 and a
60-character text with budget 51. -/
theorem claim_C2_witness :
    truncate_content 100 "short text".toList = "short text".toList ∧
    (truncate_content 51 (List.replicate 60 'B')).length ≤ 51 + truncMarker.length :=
  ⟨claim_C2.1 "short text".toList 100 (by decide),
   ((claim_C2.2 (List.replicate 60 'B') 51 (by decide) (by decide)).2).1⟩

/-- C9: for every input text containing no character of the target-script
ranges (hiragana, katakana, CJK ideographs), `extract_japanese_response`
returns its input exactly unchanged. -/
theorem claim_C9 (text : Str) (h : ∀ c ∈ text, isJapaneseChar c = false) :
    extract_japanese_response text = text := by
  have hfil : (splitNN text).filter hasJapanese = [] := by
    rw [List.filter_eq_nil_iff]
    intro p hp
    simp only [hasJapanese, List.any_eq_true, not_exists]
    intro c hc
    obtain ⟨hc1, hc2⟩ := hc
    rw [h c (mem_of_mem_splitNN text p hp c hc1)] at hc2
    exact Bool.false_ne_true hc2
  rw [extract_japanese_response]
  simp only [hfil, List.isEmpty_nil, if_pos]

/-- Witness for C9 at a concrete English-only input. -/
theorem claim_C9_witness :
    (∀ c ∈ "All meat, no filler.".toList, isJapaneseChar c = false) ∧
    extract_japanese_response "All meat, no filler.".toList = "All meat, no filler.".toList :=
  ⟨by decide, claim_C9 "All meat, no filler.".toList (by decide)⟩

/-- The empty pattern occurs in every string. -/
theorem hasSub_nil_left (s : Str) : hasSub [] s = true := by
  cases s with
  | nil => rfl
  | cons c rest => rw [hasSub]; simp [startsWith]

/-- A pattern occurs in any string that has it as a middle factor. -/
theorem hasSub_parts (pat a b : Str) : hasSub pat (a ++ pat ++ b) = true := by
  induction a with
  | nil =>
    simp only [List.nil_append]
    cases hp : pat with
    | nil => exact hasSub_nil_left b
    | cons p ps =>
      rw [show (p :: ps) ++ b = p :: (ps ++ b) from rfl, hasSub]
      refine Bool.or_eq_true_iff.mpr (Or.inl ?_)
      rw [startsWith]
      have h1 : (p :: (ps ++ b)).take (p :: ps).length = p :: ps := by
        rw [show p :: (ps ++ b) = (p :: ps) ++ b from rfl]
        exact List.take_left _ _
      rw [h1]
      exact beq_self_eq_true _
  | cons x xs ih =>
    rw [show (x :: xs) ++ pat ++ b = x :: (xs ++ pat ++ b) from rfl, hasSub]
    exact Bool.or_eq_true_iff.mpr (Or.inr ih)

set_option maxRecDepth 8192 in
/-- C5 counterexample: a 201-character tag-free comment is cleaned to its
first 200 characters plus a three-dot ellipsis, 203 characters in all, so
the cleaned text is not "truncated to at most 200 characters". -/
theorem claim_C5_counterexample :
    ¬((cleanComment id (List.replicate 201 'a')).length ≤ 200) := by decide

/-- C5 (amended): the cleaned comment text is the tag-stripped,
entity-unescaped raw text, returned unchanged when it has at most 200
characters and otherwise truncated to its first 200 characters with an
appended `"..."` (203 characters in all); cleaning is a pure function of
the raw text, never mutating the stored comment. -/
theorem claim_C5 (unescape : Str → Str) (raw : Str) :
    (cleanComment unescape raw).length ≤ 203 ∧
    ((unescape (stripTags raw)).length ≤ 200 →
      cleanComment unescape raw = unescape (stripTags raw)) ∧
    (200 < (unescape (stripTags raw)).length →
      cleanComment unescape raw =
        (unescape (stripTags raw)).take 200 ++ "...".toList ∧
      (cleanComment unescape raw).length = 203) := by
  rw [cleanComment]
  by_cases h : 200 < (unescape (stripTags raw)).length
  · rw [if_pos h]
    have h3 : ("...".toList : Str).length = 3 := rfl
    refine ⟨?_, ?_, fun _ => ⟨rfl, ?_⟩⟩
    · simp only [List.length_append, List.length_take, h3]
      omega
    · intro hle
      omega
    · have h3 : ("...".toList : Str).length = 3 := rfl
      simp only [List.length_append, List.length_take, h3]
      omega
  · rw [if_neg h]
    push_neg at h
    exact ⟨by omega, fun _ => rfl, fun hgt => absurd hgt (by omega)⟩

set_option maxRecDepth 8192 in
/-- Witness for C5 at a short comment and a 201-character comment. -/
theorem claim_C5_witness :
    cleanComment id "short".toList = "short".toList ∧
    (cleanComment id (List.replicate 201 'a')).length = 203 :=
  ⟨((claim_C5 id "short".toList).2.1 (by decide)).trans (by decide),
   ((claim_C5 id (List.replicate 201 'a')).2.2 (by decide)).2⟩

/-- C6 counterexample: for `https://example.com/paper.pdf?download=1` the
path ends in `.pdf` but the whole-url `endswith` check fails, so the url is
not skipped and the network outcome decides the result (here a timeout). -/
theorem claim_C6_counterexample :
    endsWithStr ".pdf".toList
      (pyLower (claimUrlPath "https://example.com/paper.pdf?download=1".toList)) = true ∧
    should_skip_url "https://example.com/paper.pdf?download=1".toList = false ∧
    fetch_article_content (fun _ => none) (fun _ => none) (fun _ => none) 1500
        NetResult.timeout "https://example.com/paper.pdf?download=1".toList =
      ⟨none, none, some "Request timeout".toList, none⟩ ∧
    fetch_article_content (fun _ => none) (fun _ => none) (fun _ => none) 1500
        NetResult.timeout "https://example.com/paper.pdf?download=1".toList ≠
      skipResult := by
  refine ⟨by decide, by decide, ?_, ?_⟩
  · rfl
  · intro h
    exact absurd (congrArg FetchResult.error h) (by decide)

/-- C6 (amended): every url that is empty, contains the discussion host as
a substring, or whose lowercased full text ends in one of the skip
extensions is skipped: `fetch_article_content` returns the skip record
with content and method `None` and the skip error reason, for every
network outcome and extractor (hence without any network call), and for a
non-empty such url the per-story prompt contains the placeholder carrying
that reason. -/
theorem claim_C6 (url : Str)
    (h : url.isEmpty = true ∨ hasSub hnHost url = true ∨
      skipExtensions.any (fun e => endsWithStr e (pyLower url)) = true) :
    should_skip_url url = true ∧
    (∀ eT eR eB maxChars net,
      fetch_article_content eT eR eB maxChars net url = skipResult) ∧
    (url ≠ [] → ∀ index title score cj,
      hasSub skipErrorMsg
        (story_prompt index title url score
          (content_section (!url.isEmpty) (fetchedContext skipResult).1
            (fetchedContext skipResult).2) cj) = true) := by
  have hskip : should_skip_url url = true := by
    rw [should_skip_url]
    rcases h with h | h | h
    · rw [if_pos h]
    · by_cases h0 : url.isEmpty
      · rw [if_pos h0]
      · rw [if_neg h0, if_pos h]
    · by_cases h0 : url.isEmpty
      · rw [if_pos h0]
      · by_cases h1 : hasSub hnHost url
        · rw [if_neg h0, if_pos h1]
        · rw [if_neg h0, if_neg h1, if_pos h]
  refine ⟨hskip, ?_, ?_⟩
  · intro eT eR eB maxChars net
    rw [fetch_article_content.eq_def, if_pos hskip]
  · intro hne index title score cj
    have hurl : url.isEmpty = false := by
      cases url with
      | nil => exact absurd rfl hne
      | cons c cs => rfl
    have hctx : (fetchedContext skipResult).1 = none ∧
        (fetchedContext skipResult).2 = some skipErrorMsg := ⟨rfl, rfl⟩
    rw [hctx.1, hctx.2]
    have hsec : content_section (!url.isEmpty) none (some skipErrorMsg) =
        sectionFetchError skipErrorMsg := by
      rw [content_section, hurl]
      rfl
    rw [hsec, story_prompt, sectionFetchError]
    have hassoc :
        promptHead index title url score ++
          ("\n【記事本文】\n※記事の本文を取得できませんでした（".toList ++ skipErrorMsg ++
            "）。\nタイトルとURL情報から記事の概要を推測してください。\n".toList) ++
          promptTail cj =
        (promptHead index title url score ++
          "\n【記事本文】\n※記事の本文を取得できませんでした（".toList) ++ skipErrorMsg ++
          ("）。\nタイトルとURL情報から記事の概要を推測してください。\n".toList ++ promptTail cj) := by
      simp [List.append_assoc]
    rw [hassoc]
    exact hasSub_parts _ _ _

/-- Witness for C6 at the concrete url `https://a.com/x.pdf`. -/
theorem claim_C6_witness :
    should_skip_url "https://a.com/x.pdf".toList = true ∧
    fetch_article_content (fun _ => none) (fun _ => none) (fun _ => none) 1500
      NetResult.timeout "https://a.com/x.pdf".toList = skipResult ∧
    hasSub skipErrorMsg
      (story_prompt 1 "T".toList "https://a.com/x.pdf".toList 10
        (content_section (!("https://a.com/x.pdf".toList).isEmpty)
          (fetchedContext skipResult).1 (fetchedContext skipResult).2)
        "コメントなし".toList) = true := by
  have h := claim_C6 "https://a.com/x.pdf".toList (Or.inr (Or.inr (by decide)))
  exact ⟨h.1, h.2.1 _ _ _ 1500 NetResult.timeout,
    h.2.2 (by decide) 1 "T".toList 10 "コメントなし".toList⟩

/-- C7: `generate_story_summary` always returns a non-empty string; a
model-call exception yields the deterministic failure sentence built from
title and display url, and an output still blank after the
reasoning-channel recovery yields the numbered deterministic fallback
synthesized from title, display url, score and cleaned comments. -/
theorem claim_C7 (unescape : Str → Str) (s : Story) (index : Nat)
    (outcome : ModelOutcome) :
    generate_story_summary unescape s index outcome ≠ [] ∧
    (outcome = ModelOutcome.exn →
      generate_story_summary unescape s index outcome =
        s.title ++ " (".toList ++ display_url s ++ ") の要約生成に失敗しました。".toList) ∧
    (∀ content reasoning, outcome = ModelOutcome.ok content reasoning →
      pyBlankOpt (recoveredContent content reasoning) = true →
      generate_story_summary unescape s index outcome =
        "【記事 ".toList ++ natStr index ++ "】\n".toList ++
          story_summary_fallback unescape s) := by
  refine ⟨?_, ?_, ?_⟩
  · cases outcome with
    | exn =>
      rw [generate_story_summary]
      intro hcon
      have := congrArg List.length hcon
      simp only [List.length_append, List.length_nil] at this
      have h2 : (" (".toList : Str).length = 2 := rfl
      omega
    | ok content reasoning =>
      rw [generate_story_summary]
      intro hcon
      have := congrArg List.length hcon
      simp only [List.length_append, List.length_nil] at this
      have h2 : ("【記事 ".toList : Str).length = 4 := rfl
      omega
  · intro hexn
    subst hexn
    rfl
  · intro content reasoning hok hblank
    subst hok
    rw [generate_story_summary]
    simp only [hblank, if_pos]

/-- Witness for C7 at a concrete story, for the blank and exception outcomes. -/
theorem claim_C7_witness :
    generate_story_summary id (Story.mk "Title".toList none "1".toList 5 []) 1
        (ModelOutcome.ok none none) =
      "【記事 ".toList ++ natStr 1 ++ "】\n".toList ++
        story_summary_fallback id (Story.mk "Title".toList none "1".toList 5 []) ∧
    generate_story_summary id (Story.mk "Title".toList none "1".toList 5 []) 2
        ModelOutcome.exn ≠ [] :=
  ⟨(claim_C7 id (Story.mk "Title".toList none "1".toList 5 []) 1
      (ModelOutcome.ok none none)).2.2 none none rfl (by decide),
   (claim_C7 id (Story.mk "Title".toList none "1".toList 5 []) 2 ModelOutcome.exn).1⟩

/-- The story-message loop of `main` keeps exactly the non-empty messages
whose stripped length reaches the gate. -/
theorem collect_eq_filter (msgs : List Str) :
    collectStoryMessages msgs =
      msgs.filter
        (fun m => !m.isEmpty && decide (MIN_SUMMARY_LENGTH ≤ (pyStrip m).length)) := by
  induction msgs with
  | nil => rfl
  | cons x rest ih =>
    rw [collectStoryMessages, List.filter_cons]
    by_cases h1 : x.isEmpty
    · rw [if_pos h1, ih]
      simp [h1]
    · by_cases h2 : (pyStrip x).length < MIN_SUMMARY_LENGTH
      · rw [if_neg h1, if_pos h2, ih]
        simp only [h1, Bool.not_false, Bool.true_and]
        rw [if_neg (by simpa using h2)]
      · rw [if_neg h1, if_neg h2, ih]
        simp only [h1, Bool.not_false, Bool.true_and]
        rw [if_pos (by simpa using not_lt.mp h2)]

set_option maxRecDepth 8192 in
/-- C8: the sequence passed to the overall/theme/insight stages contains
only messages that are non-empty and whose stripped length reaches
`MIN_SUMMARY_LENGTH`, contains every input message satisfying the gate, is
an order-preserving subsequence of the inputs; and with 5 messages of
which exactly one is below the gate, exactly 4 are passed on. -/
theorem claim_C8 (msgs : List Str) :
    (∀ m ∈ collectStoryMessages msgs,
      m ≠ [] ∧ MIN_SUMMARY_LENGTH ≤ (pyStrip m).length) ∧
    (∀ m ∈ msgs, m ≠ [] → MIN_SUMMARY_LENGTH ≤ (pyStrip m).length →
      m ∈ collectStoryMessages msgs) ∧
    (collectStoryMessages msgs).Sublist msgs ∧
    (collectStoryMessages
      [List.replicate 60 'a', List.replicate 60 'b', List.replicate 60 'c',
        List.replicate 60 'd', List.replicate 10 'e']).length = 4 := by
  refine ⟨?_, ?_, ?_, by decide⟩
  · intro m hm
    rw [collect_eq_filter] at hm
    have h := List.of_mem_filter hm
    simp only [Bool.and_eq_true, Bool.not_eq_true', List.isEmpty_eq_false,
      decide_eq_true_eq, ne_eq] at h
    exact ⟨h.1, h.2⟩
  · intro m hm h1 h2
    rw [collect_eq_filter]
    apply List.mem_filter.mpr
    refine ⟨hm, ?_⟩
    simp only [Bool.and_eq_true, Bool.not_eq_true', List.isEmpty_eq_false,
      decide_eq_true_eq, ne_eq]
    exact ⟨h1, h2⟩
  · rw [collect_eq_filter]
    exact List.filter_sublist msgs

/-- Witness for C8: the concrete five-message run keeps exactly four. -/
theorem claim_C8_witness :
    (collectStoryMessages
      [List.replicate 60 'a', List.replicate 60 'b', List.replicate 60 'c',
        List.replicate 60 'd', List.replicate 10 'e']).length = 4 :=
  (claim_C8 []).2.2.2

/-- C1 (code bug): on an overall-summary response whose primary content is
empty and whose reasoning field is
`"Thinking in English first.\n\n記事は興味深い。"`, `generate_overall_summary`
computes the script-filtered recovery (`記事は興味深い。`) at line 483 but
line 485 immediately overwrites it with the raw reasoning field, so the
returned text is built from the raw value, not the recovered one. -/
theorem claim_C1 :
    generate_overall_summary (ModelOutcome.ok (some [])
        (some "Thinking in English first.\n\n記事は興味深い。".toList)) =
      "## 📋 本日の全体まとめ\n".toList ++
        "Thinking in English first.\n\n記事は興味深い。".toList ∧
    extract_japanese_response "Thinking in English first.\n\n記事は興味深い。".toList =
      "記事は興味深い。".toList ∧
    generate_overall_summary (ModelOutcome.ok (some [])
        (some "Thinking in English first.\n\n記事は興味深い。".toList)) ≠
      "## 📋 本日の全体まとめ\n".toList ++
        extract_japanese_response "Thinking in English first.\n\n記事は興味深い。".toList := by
  refine ⟨rfl, by decide, ?_⟩
  intro h
  have := congrArg List.length h
  revert this
  decide

end HNReport
